/-
Verification development for the Credit-Parser repository
(src/credit_parser: parsers.py, orchestrator.py, extract.py).

Texts are modelled as `List Char` (Python strings are sequences of code
points).  The per-bank routines in parsers.py are built from Python `re`
patterns; these are embedded through a small backtracking regular-expression
interpreter (`RE` / `mat`) whose alternatives, greedy and lazy repetitions
follow Python's backtracking preference order, so that `reSearch`,
`findAll` and `subAll`-style operations agree with `re.search`,
`re.findall` and `re.sub` on the patterns that occur in the source.
Each pattern of the source is transliterated into an `RE` value next to a
comment quoting the original pattern string.
-/
import Mathlib

namespace CreditParser

/-! ### Character classes (ASCII fragment of Python's `\s`, `\d`, `\w`) -/

def wsC (c : Char) : Bool :=
  c = ' ' || c = '\t' || c = '\n' || c = '\r' || c = '\x0b' || c = '\x0c'

def digC (c : Char) : Bool :=
  48 ≤ c.toNat && c.toNat ≤ 57

def alphaC (c : Char) : Bool :=
  (65 ≤ c.toNat && c.toNat ≤ 90) || (97 ≤ c.toNat && c.toNat ≤ 122)

def alnumC (c : Char) : Bool :=
  alphaC c || digC c

def wordC (c : Char) : Bool :=
  alnumC c || c = '_'

/-- ASCII lower-casing of one character (the fragment of `str.lower` that the
cue phrases and patterns of the source exercise). -/
def lowerChar (c : Char) : Char :=
  if 65 ≤ c.toNat && c.toNat ≤ 90 then Char.ofNat (c.toNat + 32) else c

/-- `String` literal to `List Char`. -/
def s2l (s : String) : List Char := s.data

/-- Python `str.strip()` (ASCII whitespace fragment). -/
def strip (l : List Char) : List Char :=
  ((l.dropWhile wsC).reverse.dropWhile wsC).reverse

/-! ### Regular expressions

Constructors cover exactly the constructs used by the source's patterns:
character classes (literals are singleton classes, `.`/`[\s\S]` the full
class), concatenation, alternation, capturing groups, `\b`, `^` and
counted/unbounded greedy or lazy repetition. -/

inductive RE where
  | eps : RE
  | cls (p : Char → Bool) : RE
  | cat (a b : RE) : RE
  | alt (a b : RE) : RE
  | grp (n : Nat) (a : RE) : RE
  | wordB : RE
  | atStart : RE
  | rep (lo : Nat) (hi : Option Nat) (lazy : Bool) (a : RE) : RE

structure RMatch where
  s : Nat
  e : Nat
  caps : List (Nat × Nat × Nat)
deriving Repr, DecidableEq

def isWordAt (text : List Char) (i : Nat) : Bool :=
  match text[i]? with
  | some c => wordC c
  | none => false

def wordBoundary (text : List Char) (i : Nat) : Bool :=
  (match i with
   | 0 => false
   | Nat.succ j => isWordAt text j) != isWordAt text i

/-- Backtracking matcher in continuation-passing style.  `mat text fuel r i
cp k` tries to match `r` at position `i` of `text` with capture list `cp`
(entries `(group, start, end)`, most recent first) and on success calls the
continuation `k` with the end position and captures.  Alternation prefers
the left branch; greedy repetition prefers one more iteration, lazy
repetition prefers stopping — Python's backtracking order.  A repetition
iteration that consumes nothing is cut off, as in Python.  The fuel only
bounds the recursion depth; `fuelFor` below is far above what any pattern of
the source needs on any text. -/
def mat (text : List Char) : Nat → RE → Nat → List (Nat × Nat × Nat) →
    (Nat → List (Nat × Nat × Nat) → Option RMatch) → Option RMatch
  | 0, _, _, _, _ => none
  | Nat.succ f, r, i, cp, k =>
    match r with
    | .eps => k i cp
    | .cls p =>
      match text[i]? with
      | some c => if p c then k (i + 1) cp else none
      | none => none
    | .cat a b => mat text f a i cp (fun j cp2 => mat text f b j cp2 k)
    | .alt a b =>
      match mat text f a i cp k with
      | some m => some m
      | none => mat text f b i cp k
    | .grp n a => mat text f a i cp (fun j cp2 => k j ((n, i, j) :: cp2))
    | .wordB => if wordBoundary text i then k i cp else none
    | .atStart => if i = 0 then k i cp else none
    | .rep lo hi lz a =>
      match lo with
      | Nat.succ lo' =>
        mat text f a i cp (fun j cp2 => mat text f (.rep lo' (hi.map (· - 1)) lz a) j cp2 k)
      | 0 =>
        match hi with
        | some 0 => k i cp
        | _ =>
          if lz then
            match k i cp with
            | some m => some m
            | none =>
              mat text f a i cp
                (fun j cp2 => if j = i then none else mat text f (.rep 0 (hi.map (· - 1)) lz a) j cp2 k)
          else
            match mat text f a i cp
                (fun j cp2 => if j = i then none else mat text f (.rep 0 (hi.map (· - 1)) lz a) j cp2 k) with
            | some m => some m
            | none => k i cp

def fuelFor (text : List Char) : Nat := (text.length + 1) * 100 + 100

/-- Try to match `r` anchored at position `i` (`re`'s internal match-at). -/
def tryAt (text : List Char) (r : RE) (i : Nat) : Option RMatch :=
  mat text (fuelFor text) r i [] (fun j cp => some ⟨i, j, cp⟩)

/-- Scan positions `i, i+1, …` (at most `n` of them) for the leftmost match. -/
def reSearchAux (text : List Char) (r : RE) : Nat → Nat → Option RMatch
  | 0, _ => none
  | Nat.succ n, i =>
    match tryAt text r i with
    | some m => some m
    | none => reSearchAux text r n (i + 1)

/-- `re.search(r, text)`: leftmost match, positions `0 … text.length`. -/
def reSearch (text : List Char) (r : RE) : Option RMatch :=
  reSearchAux text r (text.length + 1) 0

/-- Contents of capture group `n` of a match (most recent capture wins). -/
def groupOf (text : List Char) (m : RMatch) (n : Nat) : Option (List Char) :=
  (m.caps.find? (fun c => c.1 == n)).map (fun c => (text.drop c.2.1).take (c.2.2 - c.2.1))

/-- `m.group(1)` for patterns whose group 1 always participates. -/
def g1 (text : List Char) (m : RMatch) : List Char :=
  (groupOf text m 1).getD []

/-- `re.findall`: non-overlapping leftmost matches, resuming after each
match end (one past it for an empty match). -/
def findAllAux (text : List Char) (r : RE) : Nat → Nat → List RMatch
  | 0, _ => []
  | Nat.succ n, i =>
    if i > text.length then []
    else
      match reSearchAux text r (text.length + 1 - i) i with
      | none => []
      | some m => m :: findAllAux text r n (if m.e = m.s then m.e + 1 else m.e)

def findAll (text : List Char) (r : RE) : List RMatch :=
  findAllAux text r (text.length + 1) 0

/-- `re.findall` on a pattern with exactly one group returns the group-1
strings. -/
def findAllG1 (text : List Char) (r : RE) : List (List Char) :=
  (findAll text r).map (fun m => g1 text m)

/-! ### Pattern-building helpers -/

def seqR : List RE → RE
  | [] => .eps
  | [r] => r
  | r :: rs => .cat r (seqR rs)

def chC (c : Char) : RE := .cls (fun x => x = c)

/-- Case-insensitive literal character (`re.IGNORECASE`). -/
def chI (c : Char) : RE := .cls (fun x => lowerChar x = lowerChar c)

def litI (s : String) : RE := seqR (s.data.map chI)

def starG (r : RE) : RE := .rep 0 none false r
def plusG (r : RE) : RE := .rep 1 none false r
def optG (r : RE) : RE := .rep 0 (some 1) false r
def repG (lo hi : Nat) (r : RE) : RE := .rep lo (some hi) false r
def repL (lo hi : Nat) (r : RE) : RE := .rep lo (some hi) true r
def starL (r : RE) : RE := .rep 0 none true r

def SP : RE := .cls wsC
def sps : RE := starG SP
def sp1 : RE := plusG SP
def DIG : RE := .cls digC
/-- `[:\s]*` -/
def colonSps : RE := starG (.cls (fun c => c = ':' || wsC c))
/-- `:?\s*` (used as `\s*:?\s*` pieces in the Indian-bank patterns). -/
def optColon : RE := optG (chC ':')
/-- `[\d,]` -/
def digCommaC : RE := .cls (fun c => digC c || c = ',')
/-- `([\d,]+(?:\.\d{2})?)` without the group wrapper. -/
def amtCore : RE := seqR [plusG digCommaC, optG (seqR [chC '.', DIG, DIG])]
/-- `[₹r]` under `re.IGNORECASE` (so `R` matches too). -/
def rupC : RE := .cls (fun c => c = '₹' || c = 'r' || c = 'R')
/-- `[0-9]{1,2}/[0-9]{1,2}/[0-9]{2,4}` -/
def dateSlashCore : RE := seqR [repG 1 2 DIG, chC '/', repG 1 2 DIG, chC '/', repG 2 4 DIG]

/-! ### Shared helpers of parsers.py -/

-- FIELDS (parsers.py)
def FIELDS : List String :=
  ["total_balance", "payment_due_date", "minimum_payment", "last4", "statement_closing_date"]

/-- One `\s*CR\b` occurrence at the head of `l` (`re.IGNORECASE`): maximal
whitespace run, then `C`/`c` `R`/`r`, then a word boundary.  Returns the
rest after the occurrence. -/
def tryCR (l : List Char) : Option (List Char) :=
  match l.dropWhile wsC with
  | c1 :: c2 :: r =>
    if (c1 = 'C' || c1 = 'c') && (c2 = 'R' || c2 = 'r')
        && !(match r with | [] => false | c :: _ => wordC c) then
      some r
    else none
  | _ => none

/-- `re.sub(r"\s*CR\b", "", s, flags=re.IGNORECASE)`: remove every
occurrence, scanning left to right (fuel `= length` suffices: each step
consumes at least one character). -/
def subCRAux : Nat → List Char → List Char
  | 0, l => l
  | Nat.succ _, [] => []
  | Nat.succ f, c :: rest =>
    match tryCR (c :: rest) with
    | some r2 => subCRAux f r2
    | none => c :: subCRAux f rest

def subCR (l : List Char) : List Char := subCRAux l.length l

/-- `_clean_amount` (parsers.py).  `re.sub(r"^[₹r\s]+", "", s)` is the
removal of the leading run of `₹`/`r`/whitespace (the pattern is anchored
and greedy), i.e. `dropWhile`; the flags carry no IGNORECASE there, so `R`
is not stripped. -/
def cleanAmount (s : List Char) : List Char :=
  let s1 := strip s
  let s2 := s1.map (fun c => if c = '−' then '-' else c)
  let s3 := s2.dropWhile (fun c => c = '₹' || c = 'r' || wsC c)
  subCR s3

/-- `_last4_from_number_block` (parsers.py).  `re.findall(r"\d", s)` is the
list of digit characters of `s` in order; `"".join(digits)[-4:]` is the
last four of them. -/
def last4FromNumberBlock (s : List Char) : Option (List Char) :=
  let digits := s.filter digC
  if digits = [] then none
  else if 4 ≤ digits.length then some (digits.drop (digits.length - 4))
  else none

/-- `_find_value_after_label` (parsers.py): first occurrence of the label,
then the value pattern searched only in the `window`-character snippet after
the label's end; returns `group(1).strip()` of the value match. -/
def find_value_after_label (text : List Char) (labelR valueR : RE) (window : Nat) :
    Option (List Char) :=
  match reSearch text labelR with
  | none => none
  | some m =>
    match reSearch ((text.drop m.e).take window) valueR with
    | none => none
    | some mv => some (strip (g1 ((text.drop m.e).take window) mv))

/-! ### The field record

Python's `out = {k: None for k in FIELDS}` with subsequent key assignments
is modelled as an association list with in-place update (append if the key
is new, which never happens in the routines). -/

abbrev FieldRec : Type := List (String × Option (List Char))

def initFields : FieldRec := FIELDS.map (fun k => (k, none))

def setK : FieldRec → String → Option (List Char) → FieldRec
  | [], k, v => [(k, v)]
  | p :: d, k, v => if p.1 = k then (k, v) :: d else p :: setK d k v

def keysOf (d : FieldRec) : List String := d.map Prod.fst

/-- `out[k]` for a key that is present (`none` if the key is absent, which
the key-set invariant rules out). -/
def fget (d : FieldRec) (k : String) : Option (List Char) :=
  match d.find? (fun p => p.1 = k) with
  | some p => p.2
  | none => none

/-- Python truthiness of an `Optional[str]` (`if v:`): not `None` and
non-empty. -/
def truthy : Option (List Char) → Bool
  | none => false
  | some s => !s.isEmpty

/-! ### Bank 1 (parse_bank_1) -/

-- (?:New\s*Balance)[:\s]*\$?([\d,]+(?:\.\d{2})?)   (IGNORECASE)
def p1bal : RE :=
  seqR [litI "New", sps, litI "Balance", colonSps, optG (chC '$'), .grp 1 amtCore]

-- Payment\s*Due\s*Date[:\s]*([A-Za-z0-9/\-–]+)   (IGNORECASE)
def p1due : RE :=
  seqR [litI "Payment", sps, litI "Due", sps, litI "Date", colonSps,
    .grp 1 (plusG (.cls (fun c => alnumC c || c = '/' || c = '-' || c = '–')))]

-- Minimum\s*Payment(?:\s*Due)?[:\s]*\$?([\d,]+(?:\.\d{2})?)   (IGNORECASE)
def p1min : RE :=
  seqR [litI "Minimum", sps, litI "Payment", optG (seqR [sps, litI "Due"]),
    colonSps, optG (chC '$'), .grp 1 amtCore]

-- Account\s*Number[:\s]*([\d\-\s]+)   (IGNORECASE)
def p1acct : RE :=
  seqR [litI "Account", sps, litI "Number", colonSps,
    .grp 1 (plusG (.cls (fun c => digC c || c = '-' || wsC c)))]

-- Opening/Closing\s*Date\s*([A-Za-z0-9/\-]+)\s*[–-]\s*([A-Za-z0-9/\-]+)   (IGNORECASE)
def dateTokC : RE := .cls (fun c => alnumC c || c = '/' || c = '-')
def p1close : RE :=
  seqR [litI "Opening/Closing", sps, litI "Date", sps, .grp 1 (plusG dateTokC),
    sps, .cls (fun c => c = '–' || c = '-'), sps, .grp 2 (plusG dateTokC)]

def parse_bank_1 (t : List Char) : FieldRec :=
  let out := initFields
  -- New Balance shown multiple times; pick last occurrence
  let out := match findAllG1 t p1bal with
    | [] => out
    | v :: vs =>
      setK out "total_balance" (some (cleanAmount ((v :: vs).getLast (List.cons_ne_nil v vs))))
  let out := match reSearch t p1due with
    | some m => setK out "payment_due_date" (some (strip (g1 t m)))
    | none => out
  let out := match reSearch t p1min with
    | some m => setK out "minimum_payment" (some (cleanAmount (g1 t m)))
    | none => out
  let out := match reSearch t p1acct with
    | some m => setK out "last4" (last4FromNumberBlock (g1 t m))
    | none => out
  let out := match reSearch t p1close with
    | some m => setK out "statement_closing_date" (some (strip ((groupOf t m 2).getD [])))
    | none => out
  out

/-! ### Bank detection (detect_bank) -/

/-- Python `needle in hay`. -/
def startsWithL : List Char → List Char → Bool
  | _, [] => true
  | [], _ :: _ => false
  | h :: hs, n :: ns => h = n && startsWithL hs ns

def containsSub : List Char → List Char → Bool
  | hay, needle =>
    startsWithL hay needle ||
      match hay with
      | [] => false
      | _ :: t => containsSub t needle

def detect_bank (t : List Char) : Option String :=
  let tl := t.map lowerChar
  if containsSub tl (s2l "building blocks student handout") then some "bank1"
  else if containsSub tl (s2l "connections checking") || containsSub tl (s2l "1000 walnut") then
    some "bank2"
  else if containsSub tl (s2l "icici") || containsSub tl (s2l "your total amount due") then
    some "bank3"
  else if containsSub tl (s2l "sample credit card statement")
      || containsSub tl (s2l "great lakes higher education") then some "bank4"
  else if containsSub tl (s2l "idfcbank") || containsSub tl (s2l "customer relationship no.") then
    some "bank5"
  else none

/-! ### Bank 2 (parse_bank_2) -/

-- Ending\s*Balance.*?\$([\d,]+(?:\.\d{2})?)   (IGNORECASE | DOTALL)
def p2bal : RE :=
  seqR [litI "Ending", sps, litI "Balance", starL (.cls (fun _ => true)),
    chC '$', .grp 1 amtCore]

-- Primary\s*Account\s*Number[:\s#]*([0-9\s]+)   (IGNORECASE)
def digSpc : RE := .cls (fun c => digC c || wsC c)
def p2acct1 : RE :=
  seqR [litI "Primary", sps, litI "Account", sps, litI "Number",
    starG (.cls (fun c => c = ':' || wsC c || c = '#')), .grp 1 (plusG digSpc)]

-- Account\s*[#No\.]?\s*[:#]*\s*([0-9\s]{6,})   (IGNORECASE)
def p2acct2 : RE :=
  seqR [litI "Account", sps,
    optG (.cls (fun c => c = '#' || c = 'N' || c = 'n' || c = 'o' || c = 'O' || c = '.')),
    sps, starG (.cls (fun c => c = ':' || c = '#')), sps, .grp 1 (.rep 6 none false digSpc)]

-- Statement\s*Date[:\s]*([A-Za-z]+\s+\d{1,2},\s*\d{4})   (IGNORECASE)
def p2stmt : RE :=
  seqR [litI "Statement", sps, litI "Date", colonSps,
    .grp 1 (seqR [plusG (.cls alphaC), sp1, repG 1 2 DIG, chC ',', sps, DIG, DIG, DIG, DIG])]

def parse_bank_2 (t : List Char) : FieldRec :=
  let out := initFields
  let out := match reSearch t p2bal with
    | some m => setK out "total_balance" (some (cleanAmount (g1 t m)))
    | none => out
  -- payment_due_date / minimum_payment: left as None (checking statement)
  let out := match reSearch t p2acct1 with
    | some m => setK out "last4" (last4FromNumberBlock (g1 t m))
    | none =>
      match reSearch t p2acct2 with
      | some m => setK out "last4" (last4FromNumberBlock (g1 t m))
      | none => out
  let out := match reSearch t p2stmt with
    | some m => setK out "statement_closing_date" (some (strip (g1 t m)))
    | none => out
  out

/-! ### Bank 3 (parse_bank_3) -/

-- (?:Your\s+)?Total\s+Amount\s+Due\b   (label, IGNORECASE via the helper)
def p3labTB : RE :=
  seqR [optG (seqR [litI "Your", sp1]), litI "Total", sp1, litI "Amount", sp1, litI "Due", .wordB]

-- ([₹r]?\s*(?:\d{1,3}(?:,\d{3})+|\d+\.\d{2}))   (value pattern, IGNORECASE)
def amtIndian : RE :=
  .grp 1 (seqR [optG rupC, sps,
    .alt (seqR [repG 1 3 DIG, plusG (seqR [chC ',', DIG, DIG, DIG])])
         (seqR [plusG DIG, chC '.', DIG, DIG])])

-- (?:Your\s+)?Total\s+Amount\s+Due[\s\S]{0,60}?([₹r]?\s*[\d,]+(?:\.\d{2})?)   (IGNORECASE)
def p3fallTB : RE :=
  seqR [optG (seqR [litI "Your", sp1]), litI "Total", sp1, litI "Amount", sp1, litI "Due",
    repL 0 60 (.cls (fun _ => true)), .grp 1 (seqR [optG rupC, sps, amtCore])]

-- (?:Payment\s+)?Due\s*Date\s*:?\s*(?:\n|\s){0,20}?([0-9]{1,2}/[0-9]{1,2}/[0-9]{2,4})   (IGNORECASE)
def p3due : RE :=
  seqR [optG (seqR [litI "Payment", sp1]), litI "Due", sps, litI "Date", sps, optColon, sps,
    repL 0 20 (.alt (chC '\n') SP), .grp 1 dateSlashCore]

-- Minimum\s+Amount\s+Due\b   (label)
def p3labMin : RE :=
  seqR [litI "Minimum", sp1, litI "Amount", sp1, litI "Due", .wordB]

-- Card\s*Number\s*:?\s*([0-9Xx\s]+)   (IGNORECASE)
def p3card : RE :=
  seqR [litI "Card", sps, litI "Number", sps, optColon, sps,
    .grp 1 (plusG (.cls (fun c => digC c || c = 'X' || c = 'x' || wsC c)))]

-- Statement\s*Date\s*:?\s*([0-9]{1,2}/[0-9]{1,2}/[0-9]{2,4})   (IGNORECASE)
def p3stmt : RE :=
  seqR [litI "Statement", sps, litI "Date", sps, optColon, sps, .grp 1 dateSlashCore]

def parse_bank_3 (t : List Char) : FieldRec :=
  let out := initFields
  -- v = _find_value_after_label(..., window=80); m = None
  -- if v: out[tb] = clean(v)  else: m = re.search(fallback); if m: out[tb] = clean(m.group(1))
  let v := find_value_after_label t p3labTB amtIndian 80
  let out :=
    if truthy v then setK out "total_balance" (some (cleanAmount (v.getD [])))
    else
      match reSearch t p3fallTB with
      | some m => setK out "total_balance" (some (cleanAmount (g1 t m)))
      | none => out
  let out := match reSearch t p3due with
    | some m => setK out "payment_due_date" (some (g1 t m))
    | none => out
  let v := find_value_after_label t p3labMin amtIndian 80
  let out :=
    if truthy v then setK out "minimum_payment" (some (cleanAmount (v.getD [])))
    else out
  let out := match reSearch t p3card with
    | some m => setK out "last4" (last4FromNumberBlock (g1 t m))
    | none => out
  let out := match reSearch t p3stmt with
    | some m => setK out "statement_closing_date" (some (g1 t m))
    | none => out
  out

/-! ### Bank 4 (parse_bank_4) -/

-- NEW\s+BALANCE\b   (label)
def p4labNB : RE := seqR [litI "NEW", sp1, litI "BALANCE", .wordB]
-- =\s*New\s*Balance\b   (label)
def p4labNB2 : RE := seqR [chC '=', sps, litI "New", sps, litI "Balance", .wordB]
-- \$?([\d,]+(?:\.\d{2})?)   (value)
def p4val : RE := seqR [optG (chC '$'), .grp 1 amtCore]
-- PAYMENT\s*DUE\s*DATE\s*\n?\s*(\d{1,2}/\d{1,2}/\d{2,4})   (IGNORECASE)
def p4due : RE :=
  seqR [litI "PAYMENT", sps, litI "DUE", sps, litI "DATE", sps, optG (chC '\n'), sps,
    .grp 1 dateSlashCore]
-- MINIMUM\s*PAYMENT\s*DUE\b   (label)
def p4labMin : RE := seqR [litI "MINIMUM", sps, litI "PAYMENT", sps, litI "DUE", .wordB]
-- ACCOUNT\s*NUMBER\s*\n?\s*([\d\-\s]+)   (IGNORECASE)
def p4acct : RE :=
  seqR [litI "ACCOUNT", sps, litI "NUMBER", sps, optG (chC '\n'), sps,
    .grp 1 (plusG (.cls (fun c => digC c || c = '-' || wsC c)))]
-- Closing\s*Date\s*\n?\s*([0-9/\-]+)   (IGNORECASE)
def p4close : RE :=
  seqR [litI "Closing", sps, litI "Date", sps, optG (chC '\n'), sps,
    .grp 1 (plusG (.cls (fun c => digC c || c = '/' || c = '-')))]

def parse_bank_4 (t : List Char) : FieldRec :=
  let out := initFields
  -- v = fval(NEW BALANCE, 30); if not v: v = fval(= New Balance, 30); if v: set
  let v0 := find_value_after_label t p4labNB p4val 30
  let v := if truthy v0 then v0 else find_value_after_label t p4labNB2 p4val 30
  let out :=
    if truthy v then setK out "total_balance" (some (cleanAmount (v.getD []))) else out
  let out := match reSearch t p4due with
    | some m => setK out "payment_due_date" (some (g1 t m))
    | none => out
  let v := find_value_after_label t p4labMin p4val 40
  let out :=
    if truthy v then setK out "minimum_payment" (some (cleanAmount (v.getD []))) else out
  let out := match reSearch t p4acct with
    | some m => setK out "last4" (last4FromNumberBlock (g1 t m))
    | none => out
  let out := match reSearch t p4close with
    | some m => setK out "statement_closing_date" (some (g1 t m))
    | none => out
  out

/-! ### Bank 5 (parse_bank_5) -/

-- Total\s*Amount\s*Due\b   (label)
def p5labTB : RE := seqR [litI "Total", sps, litI "Amount", sps, litI "Due", .wordB]
-- Payment\s*Due\s*Date\b   (label)
def p5labDue : RE := seqR [litI "Payment", sps, litI "Due", sps, litI "Date", .wordB]
-- ([0-9]{1,2}/[0-9]{1,2}/[0-9]{2,4})   (value)
def p5valDate : RE := .grp 1 dateSlashCore
-- Minimum\s*Amount\s*Due\b   (label)
def p5labMin : RE := seqR [litI "Minimum", sps, litI "Amount", sps, litI "Due", .wordB]
-- Account\s*Number\s*:?\s*([\d\s]+)   (IGNORECASE)
def p5acct : RE :=
  seqR [litI "Account", sps, litI "Number", sps, optColon, sps, .grp 1 (plusG digSpc)]
-- Statement\s*Date\s*\n?\s*([0-9]{1,2}/[0-9]{1,2}/[0-9]{2,4})   (IGNORECASE)
def p5stmt : RE :=
  seqR [litI "Statement", sps, litI "Date", sps, optG (chC '\n'), sps, .grp 1 dateSlashCore]

def parse_bank_5 (t : List Char) : FieldRec :=
  let out := initFields
  let v := find_value_after_label t p5labTB amtIndian 160
  let out :=
    if truthy v then setK out "total_balance" (some (cleanAmount (v.getD []))) else out
  let v := find_value_after_label t p5labDue p5valDate 160
  let out :=
    if truthy v then setK out "payment_due_date" (some (v.getD [])) else out
  let v := find_value_after_label t p5labMin amtIndian 160
  let out :=
    if truthy v then setK out "minimum_payment" (some (cleanAmount (v.getD []))) else out
  let out := match reSearch t p5acct with
    | some m => setK out "last4" (last4FromNumberBlock (g1 t m))
    | none => out
  let out := match reSearch t p5stmt with
    | some m => setK out "statement_closing_date" (some (g1 t m))
    | none => out
  out

/-! ### Orchestrator (identify_and_parse) -/

def identify_and_parse (t : List Char) : List (String × Option (List Char)) :=
  -- bank = detect_bank(text) or "unknown"
  let bank := (detect_bank t).getD "unknown"
  let data :=
    if bank = "bank1" then parse_bank_1 t
    else if bank = "bank2" then parse_bank_2 t
    else if bank = "bank3" then parse_bank_3 t
    else if bank = "bank4" then parse_bank_4 t
    else if bank = "bank5" then parse_bank_5 t
    else initFields                      -- {k: None for k in FIELDS}
  -- {"bank": bank, **data}
  ("bank", some (s2l bank)) :: data

/-! ### Text extraction (extract.py)

The two extraction engines are external libraries; `extract_text`'s control
flow is embedded as a function of the two attempts' outcomes.  A Python
exception is an `Except.error` carrying the exception's constructor and
message. -/

inductive PyErr where
  | importErr (msg : String) : PyErr
  | permissionErr (msg : String) : PyErr
  | valueErr (msg : String) : PyErr
  | otherErr (msg : String) : PyErr
deriving Repr, DecidableEq

/-- The `fitz` document as seen by `_extract_with_pymupdf`. -/
structure PyMuPDFDoc where
  needs_pass : Bool
  authOk : String → Bool
  pages : List (List Char)

/-- `_extract_with_pymupdf` (extract.py). -/
def extractWithPymupdf (fitzAvailable : Bool) (doc : PyMuPDFDoc) (password : String) :
    Except PyErr (List Char) :=
  if !fitzAvailable then .error (.importErr "PyMuPDF (fitz) is not installed")
  else if doc.needs_pass && !doc.authOk password then
    .error (.permissionErr "Incorrect password for encrypted PDF (PyMuPDF)")
  else .ok (strip (List.intercalate (s2l "\n\n") doc.pages))

def extractFailMsg : String :=
  "Failed to extract text from PDF using both PyMuPDF and pdfplumber."

/-- The fallback half of `extract_text`: try pdfplumber; return its text if
non-empty, else raise the ValueError. -/
def extractFallback (secondary : Except PyErr (List Char)) : Except PyErr (List Char) :=
  match secondary with
  | .ok t => if t ≠ [] then .ok t else .error (.valueErr extractFailMsg)
  | .error _ => .error (.valueErr extractFailMsg)

/-- `extract_text` (extract.py), as a function of the outcome of each
engine's attempt: PyMuPDF first; on any exception or empty text, pdfplumber;
on any exception or empty text again, `ValueError` with a fixed message
(the underlying causes are only sent to the debug log). -/
def extract_text (primary secondary : Except PyErr (List Char)) : Except PyErr (List Char) :=
  match primary with
  | .ok t => if t ≠ [] then .ok t else extractFallback secondary
  | .error _ => extractFallback secondary

/-- "The attempt raised, or returned empty content." -/
def attemptBad : Except PyErr (List Char) → Prop
  | .ok t => t = []
  | .error _ => True

instance : DecidablePred attemptBad := fun r => by
  cases r with
  | ok t => exact (inferInstance : Decidable (t = []))
  | error _ => exact (inferInstance : Decidable True)

/-! ## Lemmas about the field record -/

theorem keysOf_setK_of_mem (k : String) (v : Option (List Char)) :
    ∀ d : FieldRec, k ∈ keysOf d → keysOf (setK d k v) = keysOf d := by
  intro d
  induction d with
  | nil => intro h; simp [keysOf] at h
  | cons p d ih =>
    intro h
    by_cases hp : p.1 = k
    · simp [setK, hp, keysOf]
    · have hk : k ∈ keysOf d := by
        have h' : k = p.1 ∨ k ∈ keysOf d := by simpa [keysOf] using h
        rcases h' with h1 | h1
        · exact absurd h1.symm hp
        · exact h1
      simp only [setK, if_neg hp, keysOf, List.map_cons]
      have := ih hk
      simp only [keysOf] at this
      rw [this]

theorem keysOf_setK_fields (d : FieldRec) (k : String) (v : Option (List Char))
    (hd : keysOf d = FIELDS) (hk : k ∈ FIELDS) : keysOf (setK d k v) = FIELDS := by
  have hmem : k ∈ keysOf d := by rw [hd]; exact hk
  rw [keysOf_setK_of_mem k v d hmem, hd]

theorem keysOf_initFields : keysOf initFields = FIELDS := by rfl

/-- C1: for every input text, each of the five per-bank extraction routines
(`parse_bank_1` … `parse_bank_5`), as well as the unclassified fallback
record `{k: None for k in FIELDS}` used by the orchestrator, returns a field
record whose key list is exactly the five canonical field names, in order;
a field that could not be located is present with value `none`, never an
omitted key. -/
theorem c1_field_record_keys (t : List Char) :
    keysOf (parse_bank_1 t) = FIELDS ∧ keysOf (parse_bank_2 t) = FIELDS ∧
    keysOf (parse_bank_3 t) = FIELDS ∧ keysOf (parse_bank_4 t) = FIELDS ∧
    keysOf (parse_bank_5 t) = FIELDS ∧ keysOf initFields = FIELDS := by
  refine ⟨?_, ?_, ?_, ?_, ?_, rfl⟩
  · simp only [parse_bank_1]; repeat' first | rfl | apply keysOf_setK_fields | decide | split
  · simp only [parse_bank_2]; repeat' first | rfl | apply keysOf_setK_fields | decide | split
  · simp only [parse_bank_3]; repeat' first | rfl | apply keysOf_setK_fields | decide | split
  · simp only [parse_bank_4]; repeat' first | rfl | apply keysOf_setK_fields | decide | split
  · simp only [parse_bank_5]; repeat' first | rfl | apply keysOf_setK_fields | decide | split

/-! ## The classifier as an ordered rule table

Following the specification's description, `detect_bank` is compared with a
first-match-wins scan of an ordered table of cue phrases. -/

def bankCues : List (List String × String) :=
  [(["building blocks student handout"], "bank1"),
   (["connections checking", "1000 walnut"], "bank2"),
   (["icici", "your total amount due"], "bank3"),
   (["sample credit card statement", "great lakes higher education"], "bank4"),
   (["idfcbank", "customer relationship no."], "bank5")]

/-- A rule fires when one of its cue phrases occurs in the lower-cased text. -/
def cueHit (t : List Char) (r : List String × String) : Bool :=
  r.1.any (fun c => containsSub (t.map lowerChar) (s2l c))

theorem find?_first_idx {α : Type} (p : α → Bool) :
    ∀ (l : List α) (i : Nat) (hi : i < l.length), p (l.get ⟨i, hi⟩) = true →
      ∃ k, ∃ hk : k < l.length, k ≤ i ∧ p (l.get ⟨k, hk⟩) = true ∧
        l.find? p = some (l.get ⟨k, hk⟩) := by
  intro l
  induction l with
  | nil => intro i hi; exact absurd hi (by simp)
  | cons a l ih =>
    intro i hi h
    by_cases ha : p a = true
    · exact ⟨0, by simp, Nat.zero_le i, ha, by simp [List.find?, ha]⟩
    · cases i with
      | zero => exact absurd h ha
      | succ i' =>
        obtain ⟨k, hk, hki, hpk, hf⟩ := ih i' (by simpa using hi) (by simpa using h)
        refine ⟨k + 1, by simpa using hk, Nat.succ_le_succ hki, by simpa using hpk, ?_⟩
        simp only [List.find?, Bool.not_eq_true] at ha ⊢
        rw [ha, hf]
        simp

theorem detect_bank_eq_find (t : List Char) :
    detect_bank t = (bankCues.find? (cueHit t)).map Prod.snd := by
  cases h1 : containsSub (t.map lowerChar) (s2l "building blocks student handout") <;>
  cases h2 : (containsSub (t.map lowerChar) (s2l "connections checking")
      || containsSub (t.map lowerChar) (s2l "1000 walnut")) <;>
  cases h3 : (containsSub (t.map lowerChar) (s2l "icici")
      || containsSub (t.map lowerChar) (s2l "your total amount due")) <;>
  cases h4 : (containsSub (t.map lowerChar) (s2l "sample credit card statement")
      || containsSub (t.map lowerChar) (s2l "great lakes higher education")) <;>
  cases h5 : (containsSub (t.map lowerChar) (s2l "idfcbank")
      || containsSub (t.map lowerChar) (s2l "customer relationship no.")) <;>
    simp [detect_bank, bankCues, cueHit, List.find?, List.any_cons, List.any_nil,
      h1, h2, h3, h4, h5]

/-- C2: `detect_bank` lower-cases its input and performs the fixed ordered
sequence of substring tests of `bankCues`: it agrees with a first-match-wins
scan of the ordered rule table; when rules of two different banks both fire,
the result comes from a firing rule no later than either; when no rule
fires, the outcome is `none` (rendered "unknown" by the orchestrator); and
concretely a text carrying cues of bank2 and bank3 classifies as the
earlier-ordered bank2. -/
theorem c2_detect_bank_ordered :
    (∀ t, detect_bank t = (bankCues.find? (cueHit t)).map Prod.snd) ∧
    (∀ t i, ∀ hi : i < bankCues.length, cueHit t (bankCues.get ⟨i, hi⟩) = true →
      ∃ k, ∃ hk : k < bankCues.length, k ≤ i ∧ cueHit t (bankCues.get ⟨k, hk⟩) = true ∧
        detect_bank t = some (bankCues.get ⟨k, hk⟩).2) ∧
    (∀ t, (∀ r ∈ bankCues, cueHit t r = false) → detect_bank t = none) ∧
    detect_bank (s2l "your total amount due ... connections checking") = some "bank2" := by
  refine ⟨detect_bank_eq_find, ?_, ?_, by decide⟩
  · intro t i hi h
    obtain ⟨k, hk, hki, hpk, hf⟩ := find?_first_idx (cueHit t) bankCues i hi h
    exact ⟨k, hk, hki, hpk, by rw [detect_bank_eq_find, hf]; rfl⟩
  · intro t h
    rw [detect_bank_eq_find]
    have : bankCues.find? (cueHit t) = none := by
      rw [List.find?_eq_none]
      intro x hx
      simp [h x hx]
    rw [this]
    rfl

/-- Witness for C2 at concrete inputs: a text with no cue phrase is not
classified. -/
theorem c2_witness : detect_bank (s2l "hello world statement") = none :=
  c2_detect_bank_ordered.2.2.1 (s2l "hello world statement") (by decide)

/-! ## Lemmas for `_clean_amount` and `_last4_from_number_block` -/

theorem dropWhile_all_false {p : Char → Bool} :
    ∀ l : List Char, (∀ c ∈ l, p c = false) → l.dropWhile p = l := by
  intro l h
  cases l with
  | nil => rfl
  | cons c r => simp [List.dropWhile_cons, h c (List.mem_cons_self c r)]

theorem strip_all_no_ws (l : List Char) (h : ∀ c ∈ l, wsC c = false) : strip l = l := by
  unfold strip
  rw [dropWhile_all_false l h,
    dropWhile_all_false l.reverse (fun c hc => h c (List.mem_reverse.mp hc)),
    List.reverse_reverse]

theorem map_minus_id (l : List Char) (h : ∀ c ∈ l, c ≠ '−') :
    l.map (fun c => if c = '−' then '-' else c) = l := by
  induction l with
  | nil => rfl
  | cons c r ih =>
    simp [h c (List.mem_cons_self _ _), ih (fun d hd => h d (List.mem_cons_of_mem _ hd))]

theorem tryCR_none (c : Char) (rest : List Char)
    (hws : wsC c = false) (hC : c ≠ 'C') (hc : c ≠ 'c') : tryCR (c :: rest) = none := by
  cases rest with
  | nil => simp [tryCR, List.dropWhile_cons, hws]
  | cons c2 r => simp [tryCR, List.dropWhile_cons, hws, hC, hc]

theorem subCRAux_id : ∀ (f : Nat) (l : List Char),
    (∀ c ∈ l, wsC c = false ∧ c ≠ 'C' ∧ c ≠ 'c') → subCRAux f l = l := by
  intro f
  induction f with
  | zero => intro l _; rfl
  | succ f ih =>
    intro l h
    cases l with
    | nil => rfl
    | cons c r =>
      have hc := h c (List.mem_cons_self _ _)
      simp only [subCRAux, tryCR_none c r hc.1 hc.2.1 hc.2.2]
      rw [ih r (fun d hd => h d (List.mem_cons_of_mem _ hd))]

theorem subCR_id (l : List Char) (h : ∀ c ∈ l, wsC c = false ∧ c ≠ 'C' ∧ c ≠ 'c') :
    subCR l = l :=
  subCRAux_id l.length l h

/-- Characters of a plain amount string (digits, commas, dots) are untouched
by every stage of `_clean_amount`. -/
theorem amountCharFacts (c : Char) (h : digC c = true ∨ c = ',' ∨ c = '.') :
    wsC c = false ∧ c ≠ '−' ∧ ((c = '₹' || c = 'r' || wsC c) = false) ∧ c ≠ 'C' ∧ c ≠ 'c' := by
  rcases h with h | h | h
  · have h1 : 48 ≤ c.toNat ∧ c.toNat ≤ 57 := by simpa [digC] using h
    have hni : ∀ d : Char, d.toNat < 48 ∨ 57 < d.toNat → c ≠ d := by
      intro d hd e
      rw [e] at h1
      omega
    have hw : wsC c = false := by
      by_contra hb
      have hb' : wsC c = true := by simpa using hb
      simp only [wsC, Bool.or_eq_true, decide_eq_true_eq] at hb'
      rcases hb' with ((((e | e) | e) | e) | e) | e <;>
        first
          | exact hni ' ' (by decide) e
          | exact hni '\t' (by decide) e
          | exact hni '\n' (by decide) e
          | exact hni '\r' (by decide) e
          | exact hni '\x0b' (by decide) e
          | exact hni '\x0c' (by decide) e
    refine ⟨hw, hni '−' (by decide), ?_, hni 'C' (by decide), hni 'c' (by decide)⟩
    rw [hw]
    simp [hni '₹' (by decide), hni 'r' (by decide)]
  · subst h; exact ⟨by decide, by decide, by decide, by decide, by decide⟩
  · subst h; exact ⟨by decide, by decide, by decide, by decide, by decide⟩

/-- C4: `_clean_amount` strips leading currency markers and stray `r`
prefixes, converts the unicode minus sign to an ASCII hyphen before the
leading-marker and `CR` stages inspect the string, removes a trailing
case-insensitive `CR` marker with its leading whitespace, and leaves a
string already in plain digit-grouping/decimal form unchanged; in
particular `"₹ 1,234.56 CR"` yields `"1,234.56"`. -/
theorem c4_clean_amount :
    cleanAmount (s2l "₹ 1,234.56 CR") = s2l "1,234.56" ∧
    cleanAmount (s2l "−1,234.56") = s2l "-1,234.56" ∧
    (∀ s : List Char, (∀ c ∈ s, digC c = true ∨ c = ',' ∨ c = '.') → cleanAmount s = s) := by
  refine ⟨by decide, by decide, ?_⟩
  intro s hs
  have hf := fun c hc => amountCharFacts c (hs c hc)
  simp only [cleanAmount]
  rw [strip_all_no_ws s (fun c hc => (hf c hc).1),
    map_minus_id s (fun c hc => (hf c hc).2.1),
    dropWhile_all_false s (fun c hc => (hf c hc).2.2.1)]
  exact subCR_id s (fun c hc => ⟨(hf c hc).1, (hf c hc).2.2.2.1, (hf c hc).2.2.2.2⟩)

/-- Witness for C4: the already-normalized form is preserved. -/
theorem c4_witness : cleanAmount (s2l "1,234.56") = s2l "1,234.56" :=
  c4_clean_amount.2.2 (s2l "1,234.56") (by decide)

theorem filter_idem (p : Char → Bool) (l : List Char) :
    (l.filter p).filter p = l.filter p := by
  induction l with
  | nil => rfl
  | cons c r ih =>
    by_cases h : p c = true
    · simp [List.filter_cons, h, ih]
    · simp [List.filter_cons, h, ih]

/-- C5: `_last4_from_number_block` collects the decimal digits of the input
in order (so it is invariant under deleting the non-digit characters),
returns the last four of them when at least four are present, returns
`none` whenever fewer than four digits occur, and maps
`"4375 XXXX XXXX 8007"` to `"8007"`. -/
theorem c5_last4 :
    (∀ s : List Char, (s.filter digC).length < 4 → last4FromNumberBlock s = none) ∧
    (∀ s : List Char, 4 ≤ (s.filter digC).length →
      last4FromNumberBlock s = some ((s.filter digC).drop ((s.filter digC).length - 4))) ∧
    (∀ s : List Char, last4FromNumberBlock (s.filter digC) = last4FromNumberBlock s) ∧
    last4FromNumberBlock (s2l "4375 XXXX XXXX 8007") = some (s2l "8007") := by
  refine ⟨?_, ?_, ?_, by decide⟩
  · intro s h
    simp only [last4FromNumberBlock]
    split_ifs <;> first | rfl | omega
  · intro s h
    simp only [last4FromNumberBlock]
    split_ifs <;> first | rfl | omega | simp_all
  · intro s
    simp only [last4FromNumberBlock, filter_idem]

/-- Witness for C5: an input with fewer than four digits yields `none`. -/
theorem c5_witness : last4FromNumberBlock (s2l "ab-12c") = none :=
  c5_last4.1 (s2l "ab-12c") (by decide)

/-! ## Bank 1: last balance occurrence and the closing-date range -/

/-- C6: in `parse_bank_1`, when the balance pattern (label `New Balance`)
matches several times, `total_balance` is the cleaned group of the last
match of `re.findall`, not the first; concretely, a text naming
`New Balance` twice yields the second value `20.00`. -/
theorem c6_bank1_last_balance :
    (∀ (t : List Char) (v : List Char) (vs : List (List Char)),
      findAllG1 t p1bal = v :: vs →
      fget (parse_bank_1 t) "total_balance" =
        some (cleanAmount ((v :: vs).getLast (List.cons_ne_nil v vs)))) ∧
    findAllG1 (s2l "New Balance: $10.00 then later New Balance: $20.00") p1bal =
      [s2l "10.00", s2l "20.00"] ∧
    fget (parse_bank_1 (s2l "New Balance: $10.00 then later New Balance: $20.00"))
      "total_balance" = some (s2l "20.00") ∧
    cleanAmount (s2l "10.00") ≠ s2l "20.00" := by
  refine ⟨?_, by decide, by decide, by decide⟩
  intro t v vs h
  simp only [parse_bank_1, h]
  repeat' split
  all_goals rfl

/-- Witness for C6 at the two-occurrence text. -/
theorem c6_witness :
    fget (parse_bank_1 (s2l "New Balance: $10.00 then later New Balance: $20.00"))
      "total_balance" =
      some (cleanAmount ((s2l "10.00" :: [s2l "20.00"]).getLast
        (List.cons_ne_nil (s2l "10.00") [s2l "20.00"]))) :=
  c6_bank1_last_balance.1 (s2l "New Balance: $10.00 then later New Balance: $20.00")
    (s2l "10.00") [s2l "20.00"] (by decide)

/-- C7: `parse_bank_1` takes `statement_closing_date` from capture group 2
of the `Opening/Closing Date X – Y` range pattern — the second endpoint —
and the range separator class accepts both the unicode en-dash and the
ASCII hyphen; both concrete forms yield `01/31/2024`. -/
theorem c7_closing_date_range :
    (∀ (t : List Char) (m : RMatch), reSearch t p1close = some m →
      fget (parse_bank_1 t) "statement_closing_date" =
        some (strip ((groupOf t m 2).getD []))) ∧
    fget (parse_bank_1 (s2l "Opening/Closing Date 01/02/2024 – 01/31/2024"))
      "statement_closing_date" = some (s2l "01/31/2024") ∧
    fget (parse_bank_1 (s2l "Opening/Closing Date 01/02/2024 - 01/31/2024"))
      "statement_closing_date" = some (s2l "01/31/2024") := by
  refine ⟨?_, by decide, by decide⟩
  intro t m h
  simp only [parse_bank_1, h]
  repeat' split
  all_goals rfl

/-- Witness for C7: the range match of the en-dash text has group 2 spanning
positions 34–44, and the routine returns that substring. -/
theorem c7_witness :
    fget (parse_bank_1 (s2l "Opening/Closing Date 01/02/2024 – 01/31/2024"))
      "statement_closing_date" =
      some (strip ((groupOf (s2l "Opening/Closing Date 01/02/2024 – 01/31/2024")
        ⟨0, 44, [(2, 34, 44), (1, 21, 31)]⟩ 2).getD [])) :=
  c7_closing_date_range.1 (s2l "Opening/Closing Date 01/02/2024 – 01/31/2024")
    ⟨0, 44, [(2, 34, 44), (1, 21, 31)]⟩ (by decide)

/-! ## Orchestrator fallback -/

/-- C8: whenever classification yields no bank, `identify_and_parse` returns
the record with `bank = "unknown"` and all five canonical fields absent;
the function is total, so no error is raised. -/
theorem c8_unknown_all_absent (t : List Char) (h : detect_bank t = none) :
    identify_and_parse t =
      [("bank", some (s2l "unknown")), ("total_balance", none), ("payment_due_date", none),
       ("minimum_payment", none), ("last4", none), ("statement_closing_date", none)] := by
  simp only [identify_and_parse, h]
  rfl

/-- Witness for C8: a text with none of the cue phrases. -/
theorem c8_witness :
    identify_and_parse (s2l "quarterly gas bill") =
      [("bank", some (s2l "unknown")), ("total_balance", none), ("payment_due_date", none),
       ("minimum_payment", none), ("last4", none), ("statement_closing_date", none)] :=
  c8_unknown_all_absent (s2l "quarterly gas bill") (by decide)

/-! ## extract_text: fallback policy and failure modes -/

/-- C9 counterexample: two runs of `extract_text` whose two underlying
attempts fail for entirely different causes raise the very same error — the
fixed `ValueError` message — so the raised extraction failure does not
carry the underlying causes (they are only written to the debug log). -/
theorem c9_counterexample :
    extract_text (.error (.importErr "cause A1")) (.error (.importErr "cause A2")) =
      extract_text (.error (.otherErr "cause B1")) (.error (.otherErr "cause B2")) ∧
    extract_text (.error (.importErr "cause A1")) (.error (.importErr "cause A2")) =
      .error (.valueErr extractFailMsg) :=
  ⟨rfl, rfl⟩

/-- C9 (amended): `extract_text` attempts the primary method first and
returns its non-empty text; when the primary raises or yields empty
content it attempts the secondary and returns its non-empty text; it raises
an error if and only if each of the two attempts raised or yielded empty
content, and every raised error is the fixed extraction-failure
`ValueError`, which does not include the underlying causes. -/
theorem c9_extract_fallback :
    (∀ (p s : Except PyErr (List Char)) (t : List Char), p = .ok t → t ≠ [] →
      extract_text p s = .ok t) ∧
    (∀ (p s : Except PyErr (List Char)) (t : List Char), attemptBad p → s = .ok t → t ≠ [] →
      extract_text p s = .ok t) ∧
    (∀ p s : Except PyErr (List Char),
      (∃ e, extract_text p s = .error e) ↔ (attemptBad p ∧ attemptBad s)) ∧
    (∀ (p s : Except PyErr (List Char)) (e : PyErr), extract_text p s = .error e →
      e = .valueErr extractFailMsg) := by
  refine ⟨?_, ?_, ?_, ?_⟩
  · intro p s t hp ht
    subst hp
    simp [extract_text, ht]
  · intro p s t hp hs ht
    subst hs
    cases p with
    | ok t' =>
      have h' : t' = [] := hp
      subst h'
      simp [extract_text, extractFallback, ht]
    | error e => simp [extract_text, extractFallback, ht]
  · intro p s
    cases p <;> cases s <;>
      simp only [extract_text, extractFallback, attemptBad] <;>
      (try split_ifs) <;> simp_all
  · intro p s e he
    cases p <;> cases s <;>
      simp only [extract_text, extractFallback] at he <;>
      (try split_ifs at he) <;> simp_all

/-- Witness for C9 (amended): a successful primary attempt is returned. -/
theorem c9_witness :
    extract_text (.ok (s2l "page text")) (.error (.otherErr "never reached")) =
      .ok (s2l "page text") :=
  c9_extract_fallback.1 (.ok (s2l "page text")) (.error (.otherErr "never reached"))
    (s2l "page text") rfl (by decide)

/-- A password-protected document whose `authenticate` rejects every
password. -/
def badDoc : PyMuPDFDoc := ⟨true, fun _ => false, [s2l "page one"]⟩

/-- C10 counterexample: at the service boundary (`extract_text`), a
rejected password produces exactly the same failure value as absent/empty
content — the generic extraction-failure `ValueError` — so the
authentication failure is not a distinct failure mode of the text
extraction service (the `PermissionError` of the PyMuPDF helper is caught
inside `extract_text`). -/
theorem c10_counterexample :
    extractWithPymupdf true badDoc "guess" =
      .error (.permissionErr "Incorrect password for encrypted PDF (PyMuPDF)") ∧
    extract_text (extractWithPymupdf true badDoc "guess")
        (.error (.otherErr "PDFPasswordIncorrect")) =
      .error (.valueErr extractFailMsg) ∧
    extract_text (.ok []) (.ok []) = .error (.valueErr extractFailMsg) :=
  ⟨rfl, rfl, rfl⟩

/-- C10 (amended): the primary extraction helper `_extract_with_pymupdf`
raises a `PermissionError` when a password-protected document's password is
rejected, a failure mode distinct (as a value) from the generic extraction
`ValueError`; `extract_text`, however, catches it and — when the fallback
also raises or yields empty content — reports only the generic extraction
failure. -/
theorem c10_auth_failure :
    (∀ (d : PyMuPDFDoc) (pw : String), d.needs_pass = true → d.authOk pw = false →
      extractWithPymupdf true d pw =
        .error (.permissionErr "Incorrect password for encrypted PDF (PyMuPDF)")) ∧
    (∀ m m' : String, PyErr.permissionErr m ≠ PyErr.valueErr m') ∧
    (∀ (d : PyMuPDFDoc) (pw : String) (sec : Except PyErr (List Char)),
      d.needs_pass = true → d.authOk pw = false → attemptBad sec →
      extract_text (extractWithPymupdf true d pw) sec = .error (.valueErr extractFailMsg)) := by
  refine ⟨?_, ?_, ?_⟩
  · intro d pw h1 h2
    simp [extractWithPymupdf, h1, h2]
  · intro m m' h
    exact PyErr.noConfusion h
  · intro d pw sec h1 h2 hsec
    have hp : extractWithPymupdf true d pw =
        .error (.permissionErr "Incorrect password for encrypted PDF (PyMuPDF)") := by
      simp [extractWithPymupdf, h1, h2]
    rw [hp]
    cases sec with
    | ok t =>
      have h' : t = [] := hsec
      subst h'
      simp [extract_text, extractFallback]
    | error e => simp [extract_text, extractFallback]

/-- Witness for C10 (amended), at the concrete always-rejecting document. -/
theorem c10_witness :
    extractWithPymupdf true badDoc "guess" =
      .error (.permissionErr "Incorrect password for encrypted PDF (PyMuPDF)") :=
  c10_auth_failure.1 badDoc "guess" rfl rfl

/-! ## Leftmost-search lemmas about the matcher -/

/-- Every successful result of `mat` is produced by its continuation. -/
theorem mat_some (text : List Char) :
    ∀ (f : Nat) (r : RE) (i : Nat) (cp : List (Nat × Nat × Nat))
      (k : Nat → List (Nat × Nat × Nat) → Option RMatch) (m : RMatch),
      mat text f r i cp k = some m → ∃ j cp', k j cp' = some m := by
  intro f
  induction f with
  | zero => intro r i cp k m h; simp [mat] at h
  | succ f ih =>
    intro r i cp k m h
    cases r with
    | eps => exact ⟨i, cp, h⟩
    | cls p =>
      simp only [mat] at h
      cases hg : text[i]? with
      | none => simp only [hg] at h; exact absurd h (by simp)
      | some c =>
        simp only [hg] at h
        by_cases hp : p c = true
        · rw [if_pos hp] at h; exact ⟨i + 1, cp, h⟩
        · rw [if_neg hp] at h; exact absurd h (by simp)
    | cat a b =>
      simp only [mat] at h
      obtain ⟨j, cp', hj⟩ := ih _ _ _ _ _ h
      exact ih _ _ _ _ _ hj
    | alt a b =>
      simp only [mat] at h
      cases hA : mat text f a i cp k with
      | some m2 =>
        rw [hA] at h
        obtain rfl : m2 = m := Option.some.inj h
        exact ih _ _ _ _ _ hA
      | none =>
        rw [hA] at h
        exact ih _ _ _ _ _ h
    | grp n a =>
      simp only [mat] at h
      obtain ⟨j, cp', hj⟩ := ih _ _ _ _ _ h
      exact ⟨j, (n, i, j) :: cp', hj⟩
    | wordB =>
      simp only [mat] at h
      by_cases hb : wordBoundary text i = true
      · rw [if_pos hb] at h; exact ⟨i, cp, h⟩
      · rw [if_neg hb] at h; exact absurd h (by simp)
    | atStart =>
      simp only [mat] at h
      by_cases hb : i = 0
      · rw [if_pos hb] at h; exact ⟨i, cp, h⟩
      · rw [if_neg hb] at h; exact absurd h (by simp)
    | rep lo hi lz a =>
      simp only [mat] at h
      cases lo with
      | succ lo' =>
        obtain ⟨j, cp', hj⟩ := ih _ _ _ _ _ h
        exact ih _ _ _ _ _ hj
      | zero =>
        have body :
            ∀ hv : Option Nat,
              (if lz then
                match k i cp with
                | some m0 => some m0
                | none =>
                  mat text f a i cp
                    (fun j cp2 => if j = i then none else
                      mat text f (.rep 0 (hv.map (· - 1)) lz a) j cp2 k)
              else
                match
                  mat text f a i cp
                    (fun j cp2 => if j = i then none else
                      mat text f (.rep 0 (hv.map (· - 1)) lz a) j cp2 k) with
                | some m0 => some m0
                | none => k i cp) = some m →
              ∃ j cp', k j cp' = some m := by
          intro hv hb
          by_cases hlz : lz = true
          · rw [if_pos hlz] at hb
            cases hK : k i cp with
            | some m2 =>
              rw [hK] at hb
              have hm : m2 = m := Option.some.inj hb
              exact ⟨i, cp, hm ▸ hK⟩
            | none =>
              rw [hK] at hb
              obtain ⟨j, cp', hj⟩ := ih _ _ _ _ _ hb
              by_cases hji : j = i
              · rw [if_pos hji] at hj; exact absurd hj (by simp)
              · rw [if_neg hji] at hj; exact ih _ _ _ _ _ hj
          · rw [if_neg hlz] at hb
            cases hA :
                mat text f a i cp
                  (fun j cp2 => if j = i then none else
                    mat text f (.rep 0 (hv.map (· - 1)) lz a) j cp2 k) with
            | some m2 =>
              rw [hA] at hb
              have hm : m2 = m := Option.some.inj hb
              obtain ⟨j, cp', hj⟩ := ih _ _ _ _ _ hA
              by_cases hji : j = i
              · rw [if_pos hji] at hj; exact absurd hj (by simp)
              · rw [if_neg hji] at hj
                obtain ⟨j2, cp2', hj2⟩ := ih _ _ _ _ _ hj
                exact ⟨j2, cp2', hm ▸ hj2⟩
            | none =>
              rw [hA] at hb
              exact ⟨i, cp, hb⟩
        cases hi with
        | none => exact body none h
        | some n =>
          cases n with
          | zero => exact ⟨i, cp, h⟩
          | succ n' => exact body (some (n' + 1)) h

/-- A match found by `tryAt` at position `i` starts at `i`. -/
theorem tryAt_start (text : List Char) (r : RE) (i : Nat) (m : RMatch)
    (h : tryAt text r i = some m) : m.s = i := by
  obtain ⟨j, cp', hj⟩ := mat_some text (fuelFor text) r i [] _ m h
  have hm : (⟨i, j, cp'⟩ : RMatch) = m := Option.some.inj hj
  rw [← hm]

/-- The positional scan returns the leftmost matching position. -/
theorem reSearchAux_leftmost (text : List Char) (r : RE) :
    ∀ (n i : Nat) (m : RMatch), reSearchAux text r n i = some m →
      i ≤ m.s ∧ ∀ j, i ≤ j → j < m.s → tryAt text r j = none := by
  intro n
  induction n with
  | zero => intro i m h; simp [reSearchAux] at h
  | succ n ih =>
    intro i m h
    simp only [reSearchAux] at h
    cases hT : tryAt text r i with
    | some m2 =>
      rw [hT] at h
      have hm : m2 = m := Option.some.inj h
      have hs : m.s = i := tryAt_start text r i m (hm ▸ hT)
      exact ⟨by omega, fun j hij hjm => by omega⟩
    | none =>
      rw [hT] at h
      obtain ⟨h1, h2⟩ := ih (i + 1) m h
      refine ⟨by omega, fun j hij hjm => ?_⟩
      by_cases hji : j = i
      · subst hji; exact hT
      · exact h2 j (by omega) hjm

/-- `re.search` semantics: no match attempt succeeds at any position before
the start of the returned match. -/
theorem reSearch_leftmost (text : List Char) (r : RE) (m : RMatch)
    (h : reSearch text r = some m) : ∀ j, j < m.s → tryAt text r j = none := by
  intro j hj
  exact (reSearchAux_leftmost text r (text.length + 1) 0 m h).2 j (Nat.zero_le j) hj

/-- A label with a decoy value placed beyond the window: the label ends at
position 11, the window is 30 characters, and the only amount in the text
starts at position 42. -/
def decoyText : List Char := s2l "NEW BALANCE                               $99.99"

/-- C3: `_find_value_after_label` returns `none` when the label pattern has
no match; otherwise it anchors at the leftmost label occurrence (no earlier
position matches the label) and its result is exactly the trimmed group 1
of the value-pattern search restricted to the `window`-character snippet
after the label's end; concretely, a value pattern match lying wholly
beyond the window (decoy at distance 31 with window 30) is not returned
even though the value pattern does match the full text. -/
theorem c3_find_value_after_label :
    (∀ (t : List Char) (labelR valueR : RE) (w : Nat),
      reSearch t labelR = none → find_value_after_label t labelR valueR w = none) ∧
    (∀ (t : List Char) (labelR valueR : RE) (w : Nat) (m : RMatch),
      reSearch t labelR = some m →
      (∀ j, j < m.s → tryAt t labelR j = none) ∧
      find_value_after_label t labelR valueR w =
        Option.map (fun mv => strip (g1 ((t.drop m.e).take w) mv))
          (reSearch ((t.drop m.e).take w) valueR)) ∧
    (find_value_after_label decoyText p4labNB p4val 30 = none ∧
      reSearch decoyText p4labNB ≠ none ∧ reSearch decoyText p4val ≠ none) := by
  refine ⟨?_, ?_, by decide, by decide, by decide⟩
  · intro t labelR valueR w h
    simp only [find_value_after_label, h]
  · intro t labelR valueR w m h
    refine ⟨reSearch_leftmost t labelR m h, ?_⟩
    simp only [find_value_after_label, h]
    cases reSearch ((t.drop m.e).take w) valueR <;> rfl

/-- Witness for C3, at the decoy text: the label matches as `⟨0, 11, []⟩`
and the routine's output equals the windowed search's output. -/
theorem c3_witness :
    find_value_after_label decoyText p4labNB p4val 30 =
      Option.map (fun mv => strip (g1 ((decoyText.drop 11).take 30) mv))
        (reSearch ((decoyText.drop 11).take 30) p4val) :=
  (c3_find_value_after_label.2.1 decoyText p4labNB p4val 30 ⟨0, 11, []⟩ (by decide)).2

end CreditParser
